import Mathlib

set_option linter.unusedVariables false
set_option maxRecDepth 4096

/-! Verification of the ralph iterative coding-agent control plane.

The definitions below are shallow embeddings of the TypeScript sources of
the repository: the validator (src/loop/validator.ts), the completion
promise detector, the iteration loop (src/loop/runner.ts), the prompt
builder (src/prompt/builder.ts), the run queue and automation scheduler
(packages/ralphd/src/queue.ts), the worktree manager
(packages/ralphd/src/worktree.ts), the run table updates
(packages/ralphd/src/db.ts) and the feedback-rerun handler
(packages/ralphd/src/index.ts). Machine numbers are modelled as Nat/Int,
JS strings as Lean strings (the sources only take lengths and slices of
ASCII text, where JS UTF-16 lengths and Lean character counts agree), and
fallible operations return Option. -/

/-! Basic string helpers shared by several embeddings. -/

/-- strLength_mk: the length of a string built from a character list. -/
theorem strLength_mk (l : List Char) : (String.mk l).length = l.length := rfl

/-- strData_append: appending strings appends their character lists. -/
theorem strData_append (a b : String) : (a ++ b).data = a.data ++ b.data := rfl

/-- strLength_append: string append adds lengths. -/
theorem strLength_append (a b : String) : (a ++ b).length = a.length + b.length := by
  show ((a.data ++ b.data) : List Char).length = a.data.length + b.data.length
  exact List.length_append a.data b.data

/-- jsTrim models JS String.prototype.trim: strip leading and trailing
whitespace. -/
def jsTrim (s : String) : String :=
  String.mk (((s.data.dropWhile Char.isWhitespace).reverse.dropWhile Char.isWhitespace).reverse)

/-- jsSliceFrom models JS String.prototype.slice with a single nonnegative
start index: keep the tail of the string from that index on. -/
def jsSliceFrom (s : String) (start : Nat) : String := String.mk (s.data.drop start)

/-- jsJoin models JS Array.prototype.join: interleave the separator between
consecutive elements. -/
def jsJoin (sep : String) : List String → String
  | [] => ""
  | [s] => s
  | s :: rest => s ++ sep ++ jsJoin sep rest

/-! Validator (src/loop/validator.ts). -/

/-- ValidationResult mirrors the per-command record of src/loop/validator.ts. -/
structure ValidationResult where
  command : String
  passed : Bool
  stdout : String
  stderr : String
  exitCode : Int
  duration : Nat
deriving DecidableEq, Repr

/-- ValidationReport mirrors the aggregate report of src/loop/validator.ts. -/
structure ValidationReport where
  allPassed : Bool
  results : List ValidationResult
  passCount : Nat
  totalCount : Nat
deriving DecidableEq, Repr

/-- mkValidationReport is the pure aggregation performed by runValidations
after the subprocess calls: passCount counts the passing commands,
totalCount is the number of commands, allPassed compares the two. -/
def mkValidationReport (results : List ValidationResult) : ValidationReport :=
  { allPassed := (results.filter (fun r => r.passed)).length == results.length
    results := results
    passCount := (results.filter (fun r => r.passed)).length
    totalCount := results.length }

/-- scoreValidation mirrors scoreValidation of src/loop/validator.ts. -/
def scoreValidation (report : ValidationReport) : Nat := report.passCount

/-- failureSectionFor mirrors the per-command section construction inside
formatFailureContext of src/loop/validator.ts. -/
def failureSectionFor (r : ValidationResult) : String :=
  let status := if r.passed then "PASSED" else "FAILED (exit code " ++ toString r.exitCode ++ ")"
  let sec := "### " ++ r.command ++ " (" ++ status ++ ")\n"
  if !r.passed then
    let output := if jsTrim r.stderr ≠ "" then jsTrim r.stderr else jsTrim r.stdout
    if output ≠ "" then sec ++ "```\n" ++ output ++ "\n```\n" else sec
  else sec

/-- fullFailureContext is the untruncated text sections.join of
formatFailureContext in src/loop/validator.ts. -/
def fullFailureContext (report : ValidationReport) : String :=
  jsJoin "\n" (report.results.map failureSectionFor)

/-- formatFailureContext mirrors formatFailureContext of
src/loop/validator.ts, including the tail-keeping truncation. -/
def formatFailureContext (report : ValidationReport) (maxChars : Nat) : String :=
  if report.allPassed then ""
  else
    let full := fullFailureContext report
    if full.length > maxChars then
      "...(truncated)\n" ++ jsSliceFrom full (full.length - maxChars + 20)
    else full

/-- C3 counterexample: for the report of one failing command and
maxChars = 1 (a positive integer), the formatted failure context is the
15-character sentinel alone, so its length exceeds maxChars. -/
theorem c3_counterexample :
    (mkValidationReport [⟨"t", false, "", "", 1, 0⟩]).allPassed = false ∧
    0 < 1 ∧
    ¬ (formatFailureContext (mkValidationReport [⟨"t", false, "", "", 1, 0⟩]) 1).length ≤ 1 := by
  decide

/-- C3 (amended): scoreValidation of an aggregated report counts the results
whose passed flag is true; if the report has allPassed the formatted failure
context is empty; if not all commands passed the length of the formatted
context is at most max maxChars 15 — hence at most maxChars whenever
15 ≤ maxChars — and whenever the untruncated text exceeds maxChars the
result is the sentinel with a tail of the untruncated text kept after it. -/
theorem c3_amended (results : List ValidationResult) (report : ValidationReport) (maxChars : Nat) :
    scoreValidation (mkValidationReport results) = (results.filter (fun r => r.passed)).length ∧
    (report.allPassed = true → formatFailureContext report maxChars = "") ∧
    (report.allPassed = false →
      (formatFailureContext report maxChars).length ≤ max maxChars 15 ∧
      (15 ≤ maxChars → (formatFailureContext report maxChars).length ≤ maxChars) ∧
      ((fullFailureContext report).length > maxChars →
        ∃ t : String, formatFailureContext report maxChars = "...(truncated)\n" ++ t ∧
          t.data <:+ (fullFailureContext report).data)) := by
  refine ⟨rfl, ?_, ?_⟩
  · intro h
    simp [formatFailureContext, h]
  · intro h
    have hlen : ∀ k : Nat,
        ("...(truncated)\n" ++ jsSliceFrom (fullFailureContext report) k).length
          = 15 + ((fullFailureContext report).data.length - k) := by
      intro k
      show (("...(truncated)\n" : String).data ++ ((fullFailureContext report).data.drop k)).length
          = 15 + ((fullFailureContext report).data.length - k)
      rw [List.length_append, List.length_drop]
      rfl
    by_cases hf : (fullFailureContext report).length > maxChars
    · have hform : formatFailureContext report maxChars
          = "...(truncated)\n" ++
            jsSliceFrom (fullFailureContext report)
              ((fullFailureContext report).length - maxChars + 20) := by
        simp [formatFailureContext, h, hf]
      have hL : (fullFailureContext report).length = (fullFailureContext report).data.length := rfl
      refine ⟨?_, ?_, ?_⟩
      · rw [hform, hlen]
        rw [hL] at hf
        omega
      · intro h15
        rw [hform, hlen]
        rw [hL] at hf
        omega
      · intro _
        exact ⟨jsSliceFrom (fullFailureContext report)
            ((fullFailureContext report).length - maxChars + 20),
          hform, List.drop_suffix _ _⟩
    · have hform : formatFailureContext report maxChars = fullFailureContext report := by
        simp [formatFailureContext, h, hf]
      refine ⟨?_, ?_, ?_⟩
      · rw [hform]
        omega
      · intro _
        rw [hform]
        omega
      · intro hgt
        exact absurd hgt hf

/-- C3 witness: the amended theorem applied to the empty report. -/
theorem c3_amended_witness : formatFailureContext (mkValidationReport []) 20 = "" :=
  (c3_amended [] (mkValidationReport []) 20).2.1 (by decide)

/-! Iteration loop (src/loop/runner.ts). -/

/-- listInfixOf decides whether the first list occurs contiguously inside the
second. -/
def listInfixOf (needle : List Char) : List Char → Bool
  | [] => needle.isPrefixOf []
  | c :: t => needle.isPrefixOf (c :: t) || listInfixOf needle t

/-- Modelled from the spec: detectPromise of src/loop/promise.ts is not under
src (only its unit tests are); per the spec, detection is true exactly when
the secret appears as a contiguous substring of the output. -/
def detectPromise (output promiseStr : String) : Bool :=
  listInfixOf promiseStr.data output.data

/-- SpawnResult mirrors the subprocess result bundle of src/utils/process.ts. -/
structure SpawnResult where
  stdout : String
  stderr : String
  exitCode : Int
  duration : Nat
deriving DecidableEq, Repr

/-- GitAction abstracts the two worktree-mutating git calls the loop makes. -/
inductive GitAction where
  | commit (msg : String)
  | revert
deriving DecidableEq, Repr

/-- IterState is the loop-carried state of runTaskLoop: the high-water mark
bestScore, the failure context for the next prompt, and the revert flag. -/
structure IterState where
  bestScore : Nat
  lastFailureOutput : String
  wasReverted : Bool
deriving DecidableEq, Repr

/-- LoopCfg is the subset of RunTaskOptions that the modelled loop body
reads. -/
structure LoopCfg where
  gitCheckpoint : Bool
  failureContextMaxChars : Nat
  dryRun : Bool
  completionPromise : String
  prdTaskId : Option String
  maxIterations : Nat
deriving DecidableEq, Repr

/-- StepOutcome: one loop-body execution either returns from runTaskLoop
(done, carrying success and iterations) or continues with a new state. -/
inductive StepOutcome where
  | done (success : Bool) (iterations : Nat) (actions : List GitAction)
  | next (st : IterState) (actions : List GitAction)
deriving DecidableEq, Repr

/-- completionCommitMsg mirrors the success-path commit message of
src/loop/runner.ts (PRD mode vs plain mode). -/
def completionCommitMsg (prdTaskId : Option String) (iteration : Nat) : String :=
  match prdTaskId with
  | some tid => "ralph: [" ++ tid ++ "] complete (iteration " ++ toString iteration ++ ")"
  | none => "ralph: task complete (iteration " ++ toString iteration ++ ")"

/-- checkpointCommitMsg mirrors the per-iteration checkpoint commit message
of src/loop/runner.ts. -/
def checkpointCommitMsg (prdTaskId : Option String) (iteration currentScore totalCount : Nat) : String :=
  match prdTaskId with
  | some tid =>
    "ralph: [" ++ tid ++ "] iteration " ++ toString iteration ++ " (" ++
      toString currentScore ++ "/" ++ toString totalCount ++ " passing)"
  | none =>
    "ralph: iteration " ++ toString iteration ++ " (" ++
      toString currentScore ++ "/" ++ toString totalCount ++ " passing)"

/-- regressionHandle mirrors step 8 of the loop body (regression check plus
git checkpoint) and the git-checkpoint-disabled branch of
src/loop/runner.ts. -/
def regressionHandle (cfg : LoopCfg) (iteration : Nat) (validation : ValidationReport)
    (st : IterState) : StepOutcome :=
  if cfg.gitCheckpoint then
    if scoreValidation validation < st.bestScore then
      StepOutcome.next
        ⟨st.bestScore, formatFailureContext validation cfg.failureContextMaxChars, true⟩
        [GitAction.revert]
    else
      StepOutcome.next
        ⟨if scoreValidation validation > st.bestScore then scoreValidation validation
          else st.bestScore,
         formatFailureContext validation cfg.failureContextMaxChars, false⟩
        [GitAction.commit
          (checkpointCommitMsg cfg.prdTaskId iteration (scoreValidation validation)
            validation.totalCount)]
  else
    StepOutcome.next
      ⟨st.bestScore, formatFailureContext validation cfg.failureContextMaxChars, false⟩
      []

/-- iterationStep mirrors the loop body of src/loop/runner.ts after the agent
subprocess has exited: promise detection on stdout ++ newline ++ stderr,
the full-success return, the claimed-but-invalid warning that falls through,
and regression handling. -/
def iterationStep (cfg : LoopCfg) (iteration : Nat) (result : SpawnResult)
    (validation : ValidationReport) (st : IterState) : StepOutcome :=
  let claimed := detectPromise (result.stdout ++ "\n" ++ result.stderr) cfg.completionPromise
  if claimed && validation.allPassed then
    StepOutcome.done true iteration
      (if cfg.gitCheckpoint then [GitAction.commit (completionCommitMsg cfg.prdTaskId iteration)]
        else [])
  else
    regressionHandle cfg iteration validation st

/-- LoopResultM mirrors LoopResult of src/loop/runner.ts. -/
structure LoopResultM where
  success : Bool
  iterations : Nat
  cancelled : Bool
deriving DecidableEq, Repr

/-- runTaskLoopFrom runs the loop from a given iteration with the given
remaining fuel; env supplies, per iteration, the agent result and the
post-agent validation report, and aborted models the cancellation signal.
The second component of the result is the trace of post-iteration states. -/
def runTaskLoopFrom (cfg : LoopCfg) (env : Nat → SpawnResult × ValidationReport)
    (aborted : Nat → Bool) : Nat → Nat → IterState → LoopResultM × List IterState
  | 0, _, _ => (⟨false, cfg.maxIterations, false⟩, [])
  | fuel + 1, iteration, st =>
    if aborted iteration then (⟨false, iteration - 1, true⟩, [])
    else if cfg.dryRun then (⟨true, 0, false⟩, [])
    else
      match iterationStep cfg iteration (env iteration).1 (env iteration).2 st with
      | StepOutcome.done success iters _ => (⟨success, iters, false⟩, [])
      | StepOutcome.next st2 _ =>
        let rest := runTaskLoopFrom cfg env aborted fuel (iteration + 1) st2
        (rest.1, st2 :: rest.2)

/-- runTaskLoopModel mirrors runTaskLoop: the baseline validation initialises
bestScore, lastFailureOutput starts empty and wasReverted false, and the
iterations run from 1 to maxIterations. -/
def runTaskLoopModel (cfg : LoopCfg) (env : Nat → SpawnResult × ValidationReport)
    (aborted : Nat → Bool) (baseline : ValidationReport) : LoopResultM × List IterState :=
  runTaskLoopFrom cfg env aborted cfg.maxIterations 1 ⟨scoreValidation baseline, "", false⟩

/-- regressionHandle_next: regression handling never returns from the loop. -/
theorem regressionHandle_next (cfg : LoopCfg) (iteration : Nat)
    (validation : ValidationReport) (st : IterState) :
    ∃ st2 acts, regressionHandle cfg iteration validation st = StepOutcome.next st2 acts := by
  unfold regressionHandle
  split_ifs <;> exact ⟨_, _, rfl⟩

/-- iterationStep_cases: the loop body either takes the full-success return
or falls through to regression handling, depending only on promise detection
and the validation verdict. -/
theorem iterationStep_cases (cfg : LoopCfg) (i : Nat) (result : SpawnResult)
    (validation : ValidationReport) (st : IterState) :
    (detectPromise (result.stdout ++ "\n" ++ result.stderr) cfg.completionPromise = true ∧
      validation.allPassed = true ∧
      iterationStep cfg i result validation st = StepOutcome.done true i
        (if cfg.gitCheckpoint then [GitAction.commit (completionCommitMsg cfg.prdTaskId i)]
          else [])) ∨
    ((detectPromise (result.stdout ++ "\n" ++ result.stderr) cfg.completionPromise = false ∨
        validation.allPassed = false) ∧
      iterationStep cfg i result validation st = regressionHandle cfg i validation st) := by
  cases hcl : detectPromise (result.stdout ++ "\n" ++ result.stderr) cfg.completionPromise with
  | false => exact Or.inr ⟨Or.inl rfl, by simp [iterationStep, hcl]⟩
  | true =>
    cases hap : validation.allPassed with
    | false => exact Or.inr ⟨Or.inr rfl, by simp [iterationStep, hcl, hap]⟩
    | true => exact Or.inl ⟨rfl, rfl, by simp [iterationStep, hcl, hap]⟩

/-- C1: the loop body at iteration i returns success=true with iterations=i
exactly when the completion secret occurs in stdout ++ newline ++ stderr and
the post-agent validation report has allPassed; on that path with
git-checkpoint enabled the loop commits all changes with the PRD-mode or
plain completion message; when the secret is detected but some validation
fails, the step does not return and falls through to regression handling. -/
theorem c1_loop_success_iff (cfg : LoopCfg) (i : Nat) (result : SpawnResult)
    (validation : ValidationReport) (st : IterState) :
    ((∃ acts, iterationStep cfg i result validation st = StepOutcome.done true i acts) ↔
      (detectPromise (result.stdout ++ "\n" ++ result.stderr) cfg.completionPromise = true ∧
        validation.allPassed = true)) ∧
    (∀ b j acts, iterationStep cfg i result validation st = StepOutcome.done b j acts →
      b = true ∧ j = i ∧
      detectPromise (result.stdout ++ "\n" ++ result.stderr) cfg.completionPromise = true ∧
      validation.allPassed = true) ∧
    (detectPromise (result.stdout ++ "\n" ++ result.stderr) cfg.completionPromise = true →
      validation.allPassed = true → cfg.gitCheckpoint = true →
      iterationStep cfg i result validation st =
        StepOutcome.done true i [GitAction.commit (completionCommitMsg cfg.prdTaskId i)]) ∧
    (∀ tid, completionCommitMsg (some tid) i =
      "ralph: [" ++ tid ++ "] complete (iteration " ++ toString i ++ ")") ∧
    (completionCommitMsg none i = "ralph: task complete (iteration " ++ toString i ++ ")") ∧
    (detectPromise (result.stdout ++ "\n" ++ result.stderr) cfg.completionPromise = true →
      validation.allPassed = false →
      iterationStep cfg i result validation st = regressionHandle cfg i validation st ∧
      ∃ st2 acts, regressionHandle cfg i validation st = StepOutcome.next st2 acts) := by
  have h := iterationStep_cases cfg i result validation st
  obtain ⟨st2, acts2, hnext⟩ := regressionHandle_next cfg i validation st
  refine ⟨⟨?_, ?_⟩, ?_, ?_, ?_, ?_, ?_⟩
  · rintro ⟨acts, hacts⟩
    rcases h with ⟨hcl, hap, -⟩ | ⟨-, heq⟩
    · exact ⟨hcl, hap⟩
    · rw [heq, hnext] at hacts
      exact StepOutcome.noConfusion hacts
  · rintro ⟨hcl, hap⟩
    rcases h with ⟨-, -, heq⟩ | ⟨hor, -⟩
    · exact ⟨_, heq⟩
    · rcases hor with h1 | h1
      · rw [h1] at hcl
        exact Bool.noConfusion hcl
      · rw [h1] at hap
        exact Bool.noConfusion hap
  · intro b j acts hacts
    rcases h with ⟨hcl, hap, heq⟩ | ⟨-, heq⟩
    · rw [heq] at hacts
      injection hacts with h1 h2 h3
      exact ⟨h1.symm, h2.symm, hcl, hap⟩
    · rw [heq, hnext] at hacts
      exact StepOutcome.noConfusion hacts
  · intro hcl hap hgc
    rcases h with ⟨-, -, heq⟩ | ⟨hor, -⟩
    · rw [heq]
      simp [hgc]
    · rcases hor with h1 | h1
      · rw [h1] at hcl
        exact Bool.noConfusion hcl
      · rw [h1] at hap
        exact Bool.noConfusion hap
  · intro tid
    rfl
  · rfl
  · intro hcl hap
    rcases h with ⟨-, hap2, -⟩ | ⟨-, heq⟩
    · rw [hap] at hap2
      exact Bool.noConfusion hap2
    · exact ⟨heq, st2, acts2, hnext⟩

/-- C1 witness: a concrete iteration whose output contains the secret and
whose validation passes returns success at that iteration with the plain
completion commit. -/
theorem c1_loop_success_iff_witness :
    iterationStep ⟨true, 4000, false, "RALPH_COMPLETE_abcd1234", none, 5⟩ 1
        ⟨"done\nRALPH_COMPLETE_abcd1234", "", 0, 1⟩
        (mkValidationReport [⟨"npm test", true, "ok", "", 0, 1⟩]) ⟨0, "", false⟩ =
      StepOutcome.done true 1 [GitAction.commit (completionCommitMsg none 1)] :=
  (c1_loop_success_iff ⟨true, 4000, false, "RALPH_COMPLETE_abcd1234", none, 5⟩ 1
    ⟨"done\nRALPH_COMPLETE_abcd1234", "", 0, 1⟩
    (mkValidationReport [⟨"npm test", true, "ok", "", 0, 1⟩]) ⟨0, "", false⟩).2.2.1
    (by decide) (by decide) rfl

/-- step_bestScore: a continuing loop-body step never lowers bestScore, and
changes it only to a strictly larger current score. -/
theorem step_bestScore (cfg : LoopCfg) (i : Nat) (result : SpawnResult)
    (validation : ValidationReport) (st st2 : IterState) (acts : List GitAction)
    (h : iterationStep cfg i result validation st = StepOutcome.next st2 acts) :
    st.bestScore ≤ st2.bestScore ∧
    (st2.bestScore = st.bestScore ∨
      (st.bestScore < scoreValidation validation ∧
        st2.bestScore = scoreValidation validation)) := by
  rcases iterationStep_cases cfg i result validation st with ⟨-, -, heq⟩ | ⟨-, heq⟩
  · rw [heq] at h
    exact StepOutcome.noConfusion h
  · rw [heq] at h
    unfold regressionHandle at h
    split_ifs at h with h1 h2 h3
    · cases h
      exact ⟨Nat.le_refl _, Or.inl rfl⟩
    · cases h
      exact ⟨Nat.le_of_lt h3, Or.inr ⟨h3, rfl⟩⟩
    · cases h
      exact ⟨Nat.le_refl _, Or.inl rfl⟩
    · cases h
      exact ⟨Nat.le_refl _, Or.inl rfl⟩

/-- loop_chain: from any starting state, the bestScore values along the trace
of the loop form a non-decreasing sequence headed by the starting value. -/
theorem loop_chain (cfg : LoopCfg) (env : Nat → SpawnResult × ValidationReport)
    (aborted : Nat → Bool) :
    ∀ fuel iteration st,
      List.Chain' (fun a b => a ≤ b) (st.bestScore ::
        ((runTaskLoopFrom cfg env aborted fuel iteration st).2.map (fun s => s.bestScore))) := by
  intro fuel
  induction fuel with
  | zero =>
    intro iteration st
    simp [runTaskLoopFrom]
  | succ n ih =>
    intro iteration st
    cases ha : aborted iteration with
    | true => simp [runTaskLoopFrom, ha]
    | false =>
      cases hd : cfg.dryRun with
      | true => simp [runTaskLoopFrom, ha, hd]
      | false =>
        cases hstep : iterationStep cfg iteration (env iteration).1 (env iteration).2 st with
        | done success iters acts =>
          simp [runTaskLoopFrom, ha, hd, hstep]
        | next st2 acts =>
          have hmono :=
            (step_bestScore cfg iteration (env iteration).1 (env iteration).2 st st2 acts hstep).1
          have hrec := ih (iteration + 1) st2
          simp only [runTaskLoopFrom, ha, hd, hstep, Bool.false_eq_true, if_false,
            List.map_cons]
          rw [List.chain'_cons]
          exact ⟨hmono, hrec⟩

/-- C2: within a single loop run, bestScore is initialised to the baseline
validation score and the trace of post-regression-handling bestScore values
is non-decreasing; a continuing step reassigns bestScore only when the
current score strictly exceeds it. -/
theorem c2_bestScore_monotone (cfg : LoopCfg) (env : Nat → SpawnResult × ValidationReport)
    (aborted : Nat → Bool) (baseline : ValidationReport) :
    List.Chain' (fun a b => a ≤ b) (scoreValidation baseline ::
      ((runTaskLoopModel cfg env aborted baseline).2.map (fun s => s.bestScore))) ∧
    (∀ i result validation st st2 acts,
      iterationStep cfg i result validation st = StepOutcome.next st2 acts →
      st2.bestScore = st.bestScore ∨
        (st.bestScore < scoreValidation validation ∧
          st2.bestScore = scoreValidation validation)) := by
  constructor
  · exact loop_chain cfg env aborted cfg.maxIterations 1 ⟨scoreValidation baseline, "", false⟩
  · intro i result validation st st2 acts h
    exact (step_bestScore cfg i result validation st st2 acts h).2

/-- C2 witness: the monotone trace at a concrete run of two iterations. -/
theorem c2_bestScore_monotone_witness :
    List.Chain' (fun a b => a ≤ b) (scoreValidation (mkValidationReport []) ::
      ((runTaskLoopModel ⟨true, 4000, false, "RALPH_COMPLETE_abcd1234", none, 2⟩
          (fun _ => (⟨"out", "", 0, 1⟩, mkValidationReport [⟨"npm test", false, "", "no", 1, 1⟩]))
          (fun _ => false) (mkValidationReport [])).2.map (fun s => s.bestScore))) :=
  (c2_bestScore_monotone ⟨true, 4000, false, "RALPH_COMPLETE_abcd1234", none, 2⟩
    (fun _ => (⟨"out", "", 0, 1⟩, mkValidationReport [⟨"npm test", false, "", "no", 1, 1⟩]))
    (fun _ => false) (mkValidationReport [])).1

/-! Prompt builder (src/prompt/builder.ts). -/

/-- ResolvedTask mirrors the PRD task record fields read by the builder. -/
structure ResolvedTask where
  id : String
  name : String
  description : String
  acceptanceCriteria : List String
  index : Nat
  total : Nat
deriving DecidableEq, Repr

/-- ProgressData mirrors ProgressData of src/loop/progress.ts; the source
field named exists is rendered fileExists because exists is a Lean keyword. -/
structure ProgressData where
  content : String
  fileExists : Bool
deriving DecidableEq, Repr

/-- PromptContext mirrors PromptContext of src/prompt/builder.ts; optional
fields are Option, and the optional completed-task list keeps only the id and
name fields the builder reads. -/
structure PromptContext where
  task : String
  iteration : Nat
  maxIterations : Nat
  progress : ProgressData
  validationCommands : List String
  completionPromise : String
  progressFile : String
  lastFailureOutput : Option String
  wasReverted : Bool
  prdTask : Option ResolvedTask
  prdName : Option String
  prdDescription : Option String
  completedTasks : Option (List (String × String))
deriving DecidableEq, Repr

/-- buildPrdHeader mirrors buildPrdHeader of src/prompt/builder.ts; the
source asserts prdTask is present, so the none case returns the empty
string. -/
def buildPrdHeader (ctx : PromptContext) : String :=
  match ctx.prdTask with
  | none => ""
  | some task =>
    jsJoin "\n"
      (["## Project: " ++ (match ctx.prdName with | some n => n | none => "Unnamed PRD")] ++
        (match ctx.prdDescription with
          | some d => if d ≠ "" then [d] else []
          | none => []) ++
        [""] ++
        ["**You are working on task " ++ toString task.index ++ " of " ++ toString task.total ++
          ": \"" ++ task.name ++ "\"** (id: `" ++ task.id ++ "`)"] ++
        (match ctx.completedTasks with
          | some ts =>
            if ts.length > 0 then
              ["", "### Previously Completed Tasks"] ++
                ts.map (fun t => "- [x] `" ++ t.1 ++ "`: " ++ t.2)
            else []
          | none => []) ++
        (if task.index < task.total then
          ["", "*" ++ toString (task.total - task.index) ++
            " task(s) remaining after this one. Focus only on the current task.*"]
          else []))

/-- taskSection is the Your Task block of buildPrompt. -/
def taskSection (ctx : PromptContext) : String := "## Your Task\n" ++ ctx.task

/-- acceptanceSection is the Acceptance Criteria block of buildPrompt. -/
def acceptanceSection (task : ResolvedTask) : String :=
  "## Acceptance Criteria\n" ++
    jsJoin "\n" (task.acceptanceCriteria.enum.map (fun p => toString (p.1 + 1) ++ ". " ++ p.2))

/-- rulesSection is the Rules block of buildPrompt, naming the iteration, the
progress file and the enumerated validation commands. -/
def rulesSection (ctx : PromptContext) : String :=
  "## Rules\n- You are iteration **" ++ toString ctx.iteration ++ "** of **" ++
    toString ctx.maxIterations ++ "** in an automated Ralph Loop.\n" ++
  "- Previous iterations may have made partial progress on the codebase.\n" ++
  "- Read `" ++ ctx.progressFile ++ "` FIRST to understand what has been done so far.\n" ++
  "- Before you finish, UPDATE `" ++ ctx.progressFile ++ "` with:\n" ++
  "  - What you accomplished this iteration\n  - What still remains to be done\n" ++
  "  - Any blockers or issues encountered\n" ++
  "- You MUST make ALL of the following validation commands pass:\n" ++
  jsJoin "\n" (ctx.validationCommands.enum.map
    (fun p => "  " ++ toString (p.1 + 1) ++ ". `" ++ p.2 ++ "`")) ++
  "\n- Run validation commands yourself to verify your work before declaring completion.\n" ++
  "- Do NOT modify test files to make tests pass — fix the actual source code.\n" ++
  "- Make small, incremental changes. Do not rewrite large sections of code unnecessarily."

/-- progressSection is the Current Progress block when prior progress
exists. -/
def progressSection (ctx : PromptContext) : String :=
  "## Current Progress (from " ++ ctx.progressFile ++ ")\n" ++ ctx.progress.content

/-- firstIterationSection is the Current Progress block of the first
iteration. -/
def firstIterationSection : String :=
  "## Current Progress\nThis is the first iteration. No previous progress exists. Start from scratch."

/-- revertSection is the warning block emitted after a reverted iteration. -/
def revertSection : String :=
  "## WARNING: Previous Iteration Was Reverted\nYour previous iteration\x27s changes were reverted because they caused a **regression** — more tests/validations failed than before. The codebase has been reset to the state before that iteration. Take a different approach this time."

/-- failureSection is the prior-failure block of buildPrompt. -/
def failureSection (s : String) : String :=
  "## Previous Iteration Validation Results\n" ++ s

/-- completionSection is the Completion block of buildPrompt, containing the
literal completion secret. -/
def completionSection (ctx : PromptContext) : String :=
  "## Completion\nWhen ALL validation commands pass and the task is **fully complete**, output this EXACT string as the **last line** of your response:\n\n    " ++
  ctx.completionPromise ++
  ("\n\n**Do NOT output this string unless you are 100% certain all validations pass.**\n**Do NOT output a similar string or a partial match.**\nIf you cannot complete the task in this iteration, describe what\x27s blocking you in `" ++
    ctx.progressFile ++ "` and exit normally.")

/-- buildPromptSections reproduces, in source order, the sections array that
buildPrompt of src/prompt/builder.ts pushes. -/
def buildPromptSections (ctx : PromptContext) : List String :=
  (match ctx.prdTask with
    | some _ => [buildPrdHeader ctx]
    | none => []) ++
  [taskSection ctx] ++
  (match ctx.prdTask with
    | some task => if task.acceptanceCriteria.length > 0 then [acceptanceSection task] else []
    | none => []) ++
  [rulesSection ctx] ++
  [if ctx.progress.fileExists && (jsTrim ctx.progress.content != "") then progressSection ctx
    else firstIterationSection] ++
  (if ctx.wasReverted then [revertSection] else []) ++
  (match ctx.lastFailureOutput with
    | some s => if s ≠ "" then [failureSection s] else []
    | none => []) ++
  [completionSection ctx]

/-- buildPrompt mirrors buildPrompt of src/prompt/builder.ts: the sections
joined by blank lines. -/
def buildPrompt (ctx : PromptContext) : String := jsJoin "\n\n" (buildPromptSections ctx)

/-- ContainsInOrderP states that the given parts occur as disjoint contiguous
substrings of the text, in the given order. -/
def ContainsInOrderP : List Char → List (List Char) → Prop
  | _, [] => True
  | hay, n :: rest => ∃ pre post, hay = pre ++ n ++ post ∧ ContainsInOrderP post rest

/-- containsInOrderP_prepend: prepending text preserves in-order
containment. -/
theorem containsInOrderP_prepend (u : List Char) (t : List Char) (parts : List (List Char))
    (h : ContainsInOrderP t parts) : ContainsInOrderP (u ++ t) parts := by
  cases parts with
  | nil => trivial
  | cons n rest =>
    obtain ⟨pre, post, heq, hrest⟩ := h
    exact ⟨u ++ pre, post, by rw [heq]; simp [List.append_assoc], hrest⟩

/-- jsJoin_containsInOrder: every element of a joined list occurs in the
joined string, in list order. -/
theorem jsJoin_containsInOrder (l : List String) :
    ContainsInOrderP (jsJoin "\n\n" l).data (l.map (fun s => s.data)) := by
  induction l with
  | nil => trivial
  | cons s rest ih =>
    cases rest with
    | nil => exact ⟨[], [], by simp [jsJoin], trivial⟩
    | cons s2 rest2 =>
      refine ⟨[], ("\n\n" : String).data ++ (jsJoin "\n\n" (s2 :: rest2)).data, ?_, ?_⟩
      · show (s ++ "\n\n" ++ jsJoin "\n\n" (s2 :: rest2)).data = _
        simp [strData_append, List.append_assoc]
      · exact containsInOrderP_prepend _ _ _ ih

/-- dropAfterFirst finds the first occurrence of the needle in the haystack
and returns the text after it, or none when the needle does not occur. -/
def dropAfterFirst (needle : List Char) : List Char → Option (List Char)
  | [] => if needle.isPrefixOf [] then some [] else none
  | c :: t =>
    if needle.isPrefixOf (c :: t) then some ((c :: t).drop needle.length)
    else dropAfterFirst needle t

/-- containsInOrderB decides in-order containment by greedy leftmost
matching. -/
def containsInOrderB : List Char → List (List Char) → Bool
  | _, [] => true
  | hay, n :: rest =>
    match dropAfterFirst n hay with
    | some h2 => containsInOrderB h2 rest
    | none => false

/-- dropAfterFirst_eq unfolds dropAfterFirst one step on any haystack. -/
theorem dropAfterFirst_eq (needle : List Char) (hay : List Char) :
    dropAfterFirst needle hay =
      if needle.isPrefixOf hay then some (hay.drop needle.length)
      else match hay with
        | [] => none
        | _ :: t => dropAfterFirst needle t := by
  cases hay <;> simp [dropAfterFirst]

/-- dropAfterFirst_of_split: when the haystack splits around the needle, the
greedy search succeeds and keeps at least the split tail. -/
theorem dropAfterFirst_of_split (n : List Char) :
    ∀ (pre : List Char) (post hay : List Char), hay = pre ++ n ++ post →
      ∃ h2, dropAfterFirst n hay = some h2 ∧ post <:+ h2 := by
  intro pre
  induction pre with
  | nil =>
    intro post hay heq
    subst heq
    rw [dropAfterFirst_eq]
    have hp : n.isPrefixOf (List.nil ++ n ++ post) = true := by
      rw [List.isPrefixOf_iff_prefix]
      simp [List.prefix_append]
    rw [hp]
    simp [List.drop_left]
  | cons c pre2 ih =>
    intro post hay heq
    subst heq
    rw [dropAfterFirst_eq]
    by_cases hp : n.isPrefixOf ((c :: pre2) ++ n ++ post) = true
    · rw [hp]
      simp only [if_true]
      refine ⟨_, rfl, ?_⟩
      have hsuf1 : post <:+ (c :: pre2) ++ n ++ post := ⟨(c :: pre2) ++ n, by simp⟩
      have hsuf2 : ((c :: pre2) ++ n ++ post).drop n.length <:+ (c :: pre2) ++ n ++ post :=
        List.drop_suffix _ _
      refine List.suffix_of_suffix_length_le hsuf1 hsuf2 ?_
      rw [List.length_drop]
      simp [List.length_append]
      omega
    · have hp2 : n.isPrefixOf ((c :: pre2) ++ n ++ post) = false := by
        cases hval : n.isPrefixOf ((c :: pre2) ++ n ++ post)
        · rfl
        · exact absurd hval hp
      rw [hp2]
      simp only [Bool.false_eq_true, if_false]
      exact ih post (pre2 ++ n ++ post) (by simp [List.append_assoc])

/-- containsInOrderP_of_suffix: in-order containment is preserved when the
text grows to the left. -/
theorem containsInOrderP_of_suffix (t h2 : List Char) (parts : List (List Char))
    (hsuf : t <:+ h2) (h : ContainsInOrderP t parts) : ContainsInOrderP h2 parts := by
  obtain ⟨u, rfl⟩ := hsuf
  exact containsInOrderP_prepend u t parts h

/-- containsInOrderP_implies_B: the greedy decision procedure is complete for
in-order containment. -/
theorem containsInOrderP_implies_B (parts : List (List Char)) :
    ∀ hay : List Char, ContainsInOrderP hay parts → containsInOrderB hay parts = true := by
  induction parts with
  | nil => intro hay h; rfl
  | cons n rest ih =>
    intro hay h
    obtain ⟨pre, post, heq, hrest⟩ := h
    obtain ⟨h2, hdrop, hsuf⟩ := dropAfterFirst_of_split n pre post hay heq
    show containsInOrderB hay (n :: rest) = true
    rw [containsInOrderB, hdrop]
    exact ih h2 (containsInOrderP_of_suffix post h2 rest hsuf hrest)

/-- c4ctx is a concrete PRD-mode prompt context used to test the section
order of buildPrompt. -/
def c4ctx : PromptContext :=
  { task := "TASKX"
    iteration := 1
    maxIterations := 2
    progress := ⟨"", false⟩
    validationCommands := ["npm test"]
    completionPromise := "RALPH_COMPLETE_abcd1234"
    progressFile := "p.md"
    lastFailureOutput := none
    wasReverted := false
    prdTask := some ⟨"t1", "N", "", ["A"], 1, 1⟩
    prdName := some "PROJX"
    prdDescription := none
    completedTasks := none }

/-- C4 counterexample: in PRD mode the prompt does not contain the task block
followed by the project header — the code emits the project header before
the task, so the order stated by the claim fails on this concrete context. -/
theorem c4_counterexample :
    ¬ ContainsInOrderP (buildPrompt c4ctx).data
        [("## Your Task\nTASKX" : String).data, ("## Project: PROJX" : String).data] := by
  intro h
  have hb := containsInOrderP_implies_B _ _ h
  exact absurd hb (by decide)

/-- C4 (amended): buildPrompt produces the join of the following blocks, each
occurring in the output in this order: when PRD context is present, the
project header first; then the task; then, in PRD mode with nonempty
criteria, the acceptance-criteria list; the rules block naming iteration i of
N, the progress filename and the enumerated validation commands; either the
prior progress or the first-iteration notice; the revert warning when
wasReverted is set; the prior-failure block when lastFailureOutput is a
nonempty string; and finally the completion instruction, which contains the
literal completion secret. -/
theorem c4_amended (ctx : PromptContext) :
    ContainsInOrderP (buildPrompt ctx).data
      (((match ctx.prdTask with
          | some _ => [buildPrdHeader ctx]
          | none => []) ++
        [taskSection ctx] ++
        (match ctx.prdTask with
          | some task =>
            if task.acceptanceCriteria.length > 0 then [acceptanceSection task] else []
          | none => []) ++
        [rulesSection ctx] ++
        [if ctx.progress.fileExists && (jsTrim ctx.progress.content != "") then
            progressSection ctx
          else firstIterationSection] ++
        (if ctx.wasReverted then [revertSection] else []) ++
        (match ctx.lastFailureOutput with
          | some s => if s ≠ "" then [failureSection s] else []
          | none => []) ++
        [completionSection ctx]).map (fun s => s.data)) ∧
    (∃ pre post : List Char,
      (completionSection ctx).data = pre ++ ctx.completionPromise.data ++ post) := by
  constructor
  · exact jsJoin_containsInOrder (buildPromptSections ctx)
  · exact ⟨("## Completion\nWhen ALL validation commands pass and the task is **fully complete**, output this EXACT string as the **last line** of your response:\n\n    " : String).data,
      (("\n\n**Do NOT output this string unless you are 100% certain all validations pass.**\n**Do NOT output a similar string or a partial match.**\nIf you cannot complete the task in this iteration, describe what\x27s blocking you in `" ++
        ctx.progressFile ++ "` and exit normally.") : String).data, rfl⟩

/-! Run queue (packages/ralphd/src/queue.ts). -/

/-- RunStatus mirrors the RunStatus union of packages/shared/src/index.ts. -/
inductive RunStatus where
  | queued | running | paused | completed | failed | cancelled
deriving DecidableEq, Repr

/-- DbStatusMap abstracts the runs table as an association list from run id
to persisted status, which is all the queue logic reads. -/
abbrev DbStatusMap := List (String × RunStatus)

/-- dbGetStatus models RalphDatabase.getRun restricted to the status field:
the first row with the given id, if any. -/
def dbGetStatus : DbStatusMap → String → Option RunStatus
  | [], _ => none
  | p :: rest, id => if p.1 = id then some p.2 else dbGetStatus rest id

/-- dbSetStatus models RalphDatabase.updateRunStatus restricted to the status
field: rewrite the status of every row with the given id. -/
def dbSetStatus : DbStatusMap → String → RunStatus → DbStatusMap
  | [], _, _ => []
  | p :: rest, id, st => (if p.1 = id then (p.1, st) else p) :: dbSetStatus rest id st

/-- QueueState is the state owned by RunQueue: the FIFO pending set, the
running set, the registered controllers, the persisted statuses and the
events emitted so far. JS Sets iterate in insertion order, so pending is a
list without duplicates. -/
structure QueueState where
  pending : List String
  running : List String
  controllers : List String
  db : DbStatusMap
  events : List (String × String)
deriving DecidableEq

/-- execSync is the synchronous prefix of RunQueue.execute, up to the await
of the executor: look the run up, check its persisted status is still
queued, and if so register the controller, add it to running, persist
status running and emit run.started. -/
def execSync (s : QueueState) (runId : String) : QueueState :=
  match dbGetStatus s.db runId with
  | none => s
  | some st =>
    if st ≠ RunStatus.queued then s
    else
      { pending := s.pending
        running := s.running ++ [runId]
        controllers := s.controllers ++ [runId]
        db := dbSetStatus s.db runId RunStatus.running
        events := s.events ++ [("run.started", runId)] }

/-- tickFuel runs the while loop of RunQueue.tick with explicit fuel; each
round pops the FIFO head of pending (stopping on the falsy empty id, as the
source does) and runs the synchronous prefix of execute on it. -/
def tickFuel (mc : Nat) : Nat → QueueState → QueueState
  | 0, s => s
  | fuel + 1, s =>
    if s.running.length < mc then
      match s.pending with
      | [] => s
      | h :: t =>
        if h = "" then s
        else tickFuel mc fuel (execSync { s with pending := t } h)
    else s

/-- tickQ models RunQueue.tick; the loop pops at most the current pending
list, so its length is enough fuel. -/
def tickQ (mc : Nat) (s : QueueState) : QueueState := tickFuel mc s.pending.length s

/-- addPending models Set.add on the pending set: appending preserves
insertion order and ignores an id already present. -/
def addPending (l : List String) (x : String) : List String :=
  if l.contains x then l else l ++ [x]

/-- enqueueOp mirrors RunQueue.enqueue: add to pending and tick. -/
def enqueueOp (mc : Nat) (s : QueueState) (runId : String) : QueueState :=
  tickQ mc { s with pending := addPending s.pending runId }

/-- pauseOp mirrors RunQueue.pause: allowed only while the run is pending
and present in the database; returns whether it paused, with the new
state. -/
def pauseOp (s : QueueState) (runId : String) : Bool × QueueState :=
  if s.pending.contains runId then
    match dbGetStatus s.db runId with
    | none => (false, s)
    | some _ =>
      (true,
        { s with
          pending := s.pending.erase runId
          db := dbSetStatus s.db runId RunStatus.paused
          events := s.events ++ [("run.paused", runId)] })
  else (false, s)

/-- resumeOp mirrors RunQueue.resume: allowed only from status paused; sets
status queued, emits run.resumed and re-enqueues. -/
def resumeOp (mc : Nat) (s : QueueState) (runId : String) : Bool × QueueState :=
  match dbGetStatus s.db runId with
  | some RunStatus.paused =>
    (true,
      enqueueOp mc
        { s with
          db := dbSetStatus s.db runId RunStatus.queued
          events := s.events ++ [("run.resumed", runId)] }
        runId)
  | _ => (false, s)

/-- stopOp mirrors RunQueue.stop: cancel a pending run directly; abort the
controller of a running run (the asynchronous finalizer is modelled by
finishOp); otherwise report false. -/
def stopOp (s : QueueState) (runId : String) : Bool × QueueState :=
  match dbGetStatus s.db runId with
  | none => (false, s)
  | some _ =>
    if s.pending.contains runId then
      (true,
        { s with
          pending := s.pending.erase runId
          db := dbSetStatus s.db runId RunStatus.cancelled
          events := s.events ++ [("run.cancelled", runId)] })
    else if s.controllers.contains runId then (true, s)
    else (false, s)

/-- ExecOutcome abstracts how the executor of a running run completes: a
normal return that persisted some final status, or a thrown exception. -/
inductive ExecOutcome where
  | ok (final : RunStatus)
  | threw (msg : String)

/-- finishOp mirrors the completion of RunQueue.execute: the catch branch
records failure and emits run.failed, and the finally block removes the
controller, removes the run from running, and ticks again. -/
def finishOp (mc : Nat) (s : QueueState) (runId : String) (o : ExecOutcome) : QueueState :=
  let s1 :=
    match o with
    | ExecOutcome.ok final => { s with db := dbSetStatus s.db runId final }
    | ExecOutcome.threw _ =>
      { s with
        db := dbSetStatus s.db runId RunStatus.failed
        events := s.events ++ [("run.failed", runId)] }
  tickQ mc
    { s1 with
      controllers := s1.controllers.erase runId
      running := s1.running.erase runId }

/-- QueueReachable: the states of a RunQueue reachable from an idle queue by
any sequence of enqueue, pause, resume, stop, tick and executor
completions. -/
inductive QueueReachable (mc : Nat) : QueueState → Prop
  | init (db : DbStatusMap) : QueueReachable mc ⟨[], [], [], db, []⟩
  | enq (s : QueueState) (id : String) :
      QueueReachable mc s → QueueReachable mc (enqueueOp mc s id)
  | pse (s : QueueState) (id : String) :
      QueueReachable mc s → QueueReachable mc (pauseOp s id).2
  | rsm (s : QueueState) (id : String) :
      QueueReachable mc s → QueueReachable mc (resumeOp mc s id).2
  | stp (s : QueueState) (id : String) :
      QueueReachable mc s → QueueReachable mc (stopOp s id).2
  | fin (s : QueueState) (id : String) (o : ExecOutcome) :
      QueueReachable mc s → id ∈ s.running → QueueReachable mc (finishOp mc s id o)
  | tic (s : QueueState) :
      QueueReachable mc s → QueueReachable mc (tickQ mc s)


/-- dbGetStatus_set_ne: updating one run leaves lookups of other ids
unchanged. -/
theorem dbGetStatus_set_ne (db : DbStatusMap) (id id2 : String) (st : RunStatus)
    (h : id2 ≠ id) : dbGetStatus (dbSetStatus db id st) id2 = dbGetStatus db id2 := by
  induction db with
  | nil => rfl
  | cons p rest ih =>
    by_cases hp : p.1 = id
    · have hid2 : ¬ id = id2 := fun hc => h hc.symm
      simp [dbSetStatus, dbGetStatus, hp, hid2, ih]
    · by_cases hq : p.1 = id2
      · simp [dbSetStatus, dbGetStatus, hp, hq, h]
      · simp [dbSetStatus, dbGetStatus, hp, hq, ih]

/-- execSync_cases: the synchronous prefix of execute either leaves the state
unchanged (missing run, or status no longer queued) or starts the run. -/
theorem execSync_cases (s : QueueState) (runId : String) :
    (execSync s runId = s ∧ dbGetStatus s.db runId ≠ some RunStatus.queued) ∨
    (dbGetStatus s.db runId = some RunStatus.queued ∧
      execSync s runId =
        { pending := s.pending
          running := s.running ++ [runId]
          controllers := s.controllers ++ [runId]
          db := dbSetStatus s.db runId RunStatus.running
          events := s.events ++ [("run.started", runId)] }) := by
  rcases hdb : dbGetStatus s.db runId with _ | st
  · refine Or.inl ⟨?_, ?_⟩
    · simp [execSync, hdb]
    · simp
  · by_cases hq : st = RunStatus.queued
    · subst hq
      refine Or.inr ⟨rfl, ?_⟩
      simp [execSync, hdb]
    · refine Or.inl ⟨?_, ?_⟩
      · simp [execSync, hdb, hq]
      · exact fun hc => hq (Option.some.inj hc)

/-- tickFuel_spec_trivial: the characterization of tick in the cases where it
leaves the state unchanged. -/
theorem tickFuel_spec_trivial (mc fuel : Nat) (s : QueueState)
    (hs : tickFuel mc fuel s = s) :
    ∃ k started,
      k ≤ s.pending.length ∧
      (tickFuel mc fuel s).pending = s.pending.drop k ∧
      (tickFuel mc fuel s).running = s.running ++ started ∧
      List.Sublist started (s.pending.take k) ∧
      (tickFuel mc fuel s).running.length ≤ max mc s.running.length ∧
      (s.pending.Nodup → ∀ id ∈ started, dbGetStatus s.db id = some RunStatus.queued) := by
  refine ⟨0, [], Nat.zero_le _, ?_, ?_, ?_, ?_, ?_⟩
  · rw [hs]
    simp
  · rw [hs]
    simp
  · simp
  · rw [hs]
    exact Nat.le_max_right _ _
  · intro _ id hid
    exact absurd hid (List.not_mem_nil id)

/-- tickFuel_spec: with enough fuel, tick consumes a prefix of the pending
list in FIFO order, appends to running exactly an in-order selection of that
prefix, keeps the running count under the cap, and (when pending has no
duplicates) starts only runs whose persisted status was still queued. -/
theorem tickFuel_spec (mc : Nat) :
    ∀ (fuel : Nat) (s : QueueState), s.pending.length ≤ fuel →
      ∃ k started,
        k ≤ s.pending.length ∧
        (tickFuel mc fuel s).pending = s.pending.drop k ∧
        (tickFuel mc fuel s).running = s.running ++ started ∧
        List.Sublist started (s.pending.take k) ∧
        (tickFuel mc fuel s).running.length ≤ max mc s.running.length ∧
        (s.pending.Nodup → ∀ id ∈ started, dbGetStatus s.db id = some RunStatus.queued) := by
  intro fuel
  induction fuel with
  | zero =>
    intro s hf
    exact tickFuel_spec_trivial mc 0 s rfl
  | succ n ih =>
    intro s hf
    by_cases hrun : s.running.length < mc
    · cases hp : s.pending with
      | nil =>
        rw [← hp]
        exact tickFuel_spec_trivial mc (n + 1) s (by simp [tickFuel, hrun, hp])
      | cons h t =>
        by_cases hh : h = ""
        · rw [← hp]
          exact tickFuel_spec_trivial mc (n + 1) s (by simp [tickFuel, hrun, hp, hh])
        · have hs : tickFuel mc (n + 1) s =
              tickFuel mc n (execSync { s with pending := t } h) := by
            simp [tickFuel, hrun, hp, hh]
          have hlent : t.length ≤ n := by
            rw [hp] at hf
            simpa using hf
          rcases execSync_cases { s with pending := t } h with ⟨hskip, hnq⟩ | ⟨hq, hstart⟩
          · rw [hskip] at hs
            obtain ⟨k2, st2, hk2, hpend2, hrun2, hsub2, hbound2, hstat2⟩ :=
              ih { s with pending := t } hlent
            have hk2t : k2 ≤ t.length := hk2
            refine ⟨k2 + 1, st2, ?_, ?_, ?_, ?_, ?_, ?_⟩
            · rw [List.length_cons]
              omega
            · rw [hs, hpend2]
              simp
            · rw [hs]
              exact hrun2
            · have hsub2t : List.Sublist st2 (t.take k2) := hsub2
              simpa using List.Sublist.cons h hsub2t
            · rw [hs]
              exact hbound2
            · intro hnd id hid
              rw [List.nodup_cons] at hnd
              have hres : dbGetStatus s.db id = some RunStatus.queued :=
                hstat2 hnd.2 id hid
              exact hres
          · have hstart2 : execSync { s with pending := t } h =
                (⟨t, s.running ++ [h], s.controllers ++ [h],
                  dbSetStatus s.db h RunStatus.running,
                  s.events ++ [("run.started", h)]⟩ : QueueState) := hstart
            rw [hstart2] at hs
            obtain ⟨k2, st2, hk2, hpend2, hrun2, hsub2, hbound2, hstat2⟩ :=
              ih (⟨t, s.running ++ [h], s.controllers ++ [h],
                dbSetStatus s.db h RunStatus.running,
                s.events ++ [("run.started", h)]⟩ : QueueState) hlent
            have hk2t : k2 ≤ t.length := hk2
            refine ⟨k2 + 1, h :: st2, ?_, ?_, ?_, ?_, ?_, ?_⟩
            · rw [List.length_cons]
              omega
            · rw [hs, hpend2]
              simp
            · rw [hs, hrun2]
              simp
            · have hsub2t : List.Sublist st2 (t.take k2) := hsub2
              simpa using List.Sublist.cons₂ h hsub2t
            · rw [hs]
              have hb2 : (tickFuel mc n
                  (⟨t, s.running ++ [h], s.controllers ++ [h],
                    dbSetStatus s.db h RunStatus.running,
                    s.events ++ [("run.started", h)]⟩ : QueueState)).running.length ≤
                  max mc (s.running.length + 1) := by
                have := hbound2
                simpa using this
              omega
            · intro hnd id hid
              rw [List.nodup_cons] at hnd
              rcases List.mem_cons.mp hid with rfl | hid2
              · exact hq
              · have hstat : dbGetStatus (dbSetStatus s.db h RunStatus.running) id =
                    some RunStatus.queued := hstat2 hnd.2 id hid2
                have hmem_t : id ∈ t := List.take_subset _ _ (hsub2.subset hid2)
                have hne : id ≠ h := fun hc => hnd.1 (hc ▸ hmem_t)
                rw [dbGetStatus_set_ne s.db h id RunStatus.running hne] at hstat
                exact hstat
    · exact tickFuel_spec_trivial mc (n + 1) s (by simp [tickFuel, hrun])

/-- tickQ_preserves: tick keeps the running count under the cap and keeps
pending duplicate-free. -/
theorem tickQ_preserves (mc : Nat) (s : QueueState) (hr : s.running.length ≤ mc)
    (hp : s.pending.Nodup) :
    (tickQ mc s).running.length ≤ mc ∧ (tickQ mc s).pending.Nodup := by
  obtain ⟨k, started, hk, hpend, hrunq, hsub, hbound, hstat⟩ :=
    tickFuel_spec mc s.pending.length s (Nat.le_refl _)
  constructor
  · have hq : tickQ mc s = tickFuel mc s.pending.length s := rfl
    rw [hq]
    omega
  · have hq : tickQ mc s = tickFuel mc s.pending.length s := rfl
    rw [hq, hpend]
    exact hp.sublist (List.drop_sublist _ _)

/-- enqueueOp_preserves: enqueue keeps the running count under the cap and
pending duplicate-free. -/
theorem enqueueOp_preserves (mc : Nat) (s : QueueState) (id : String)
    (hr : s.running.length ≤ mc) (hp : s.pending.Nodup) :
    (enqueueOp mc s id).running.length ≤ mc ∧ (enqueueOp mc s id).pending.Nodup := by
  apply tickQ_preserves
  · exact hr
  · show (addPending s.pending id).Nodup
    unfold addPending
    split_ifs with hc
    · exact hp
    · rw [List.nodup_append]
      refine ⟨hp, List.nodup_singleton _, ?_⟩
      intro a ha hb
      rw [List.mem_singleton] at hb
      subst hb
      exact hc (List.elem_eq_true_of_mem ha)


/-- pauseOp_state: pause either leaves the state unchanged or erases the run
from pending, leaving running untouched. -/
theorem pauseOp_state (s : QueueState) (id : String) :
    (pauseOp s id).2 = s ∨
    ((pauseOp s id).2.pending = s.pending.erase id ∧ (pauseOp s id).2.running = s.running) := by
  unfold pauseOp
  by_cases hc : s.pending.contains id = true
  · rw [if_pos hc]
    rcases hdb : dbGetStatus s.db id with _ | st
    · exact Or.inl rfl
    · exact Or.inr ⟨rfl, rfl⟩
  · rw [if_neg hc]
    exact Or.inl rfl

/-- stopOp_state: stop either leaves the state unchanged or erases the run
from pending, leaving running untouched. -/
theorem stopOp_state (s : QueueState) (id : String) :
    (stopOp s id).2 = s ∨
    ((stopOp s id).2.pending = s.pending.erase id ∧ (stopOp s id).2.running = s.running) := by
  unfold stopOp
  rcases hdb : dbGetStatus s.db id with _ | st
  · exact Or.inl rfl
  · by_cases hc : s.pending.contains id = true
    · rw [if_pos hc]
      exact Or.inr ⟨rfl, rfl⟩
    · rw [if_neg hc]
      by_cases hk : s.controllers.contains id = true
      · rw [if_pos hk]
        exact Or.inl rfl
      · rw [if_neg hk]
        exact Or.inl rfl

/-- resumeOp_state: resume either leaves the state unchanged or re-enqueues
on the state with the status set back to queued. -/
theorem resumeOp_state (mc : Nat) (s : QueueState) (id : String) :
    (resumeOp mc s id).2 = s ∨
    (resumeOp mc s id).2 =
      enqueueOp mc
        { s with
          db := dbSetStatus s.db id RunStatus.queued
          events := s.events ++ [("run.resumed", id)] }
        id := by
  unfold resumeOp
  rcases hdb : dbGetStatus s.db id with _ | st
  · exact Or.inl rfl
  · cases st with
    | paused => exact Or.inr rfl
    | queued => exact Or.inl rfl
    | running => exact Or.inl rfl
    | completed => exact Or.inl rfl
    | failed => exact Or.inl rfl
    | cancelled => exact Or.inl rfl

/-- queue_invariant: in every reachable queue state the running set is under
the cap and the pending list has no duplicates. -/
theorem queue_invariant (mc : Nat) (s : QueueState) (h : QueueReachable mc s) :
    s.running.length ≤ mc ∧ s.pending.Nodup := by
  induction h with
  | init db => exact ⟨Nat.zero_le _, List.nodup_nil⟩
  | enq s id hs ih => exact enqueueOp_preserves mc s id ih.1 ih.2
  | pse s id hs ih =>
    rcases pauseOp_state s id with heq | ⟨hpend, hrunn⟩
    · rw [heq]
      exact ih
    · constructor
      · rw [hrunn]
        exact ih.1
      · rw [hpend]
        exact ih.2.erase id
  | rsm s id hs ih =>
    rcases resumeOp_state mc s id with heq | heq
    · rw [heq]
      exact ih
    · rw [heq]
      exact enqueueOp_preserves mc _ id ih.1 ih.2
  | stp s id hs ih =>
    rcases stopOp_state s id with heq | ⟨hpend, hrunn⟩
    · rw [heq]
      exact ih
    · constructor
      · rw [hrunn]
        exact ih.1
      · rw [hpend]
        exact ih.2.erase id
  | fin s id o hs hmem ih =>
    unfold finishOp
    cases o with
    | ok final =>
      apply tickQ_preserves
      · show (s.running.erase id).length ≤ mc
        have := List.length_erase_le id s.running
        omega
      · exact ih.2
    | threw msg =>
      apply tickQ_preserves
      · show (s.running.erase id).length ≤ mc
        have := List.length_erase_le id s.running
        omega
      · exact ih.2
  | tic s hs ih => exact tickQ_preserves mc s ih.1 ih.2

/-- C5: in every reachable state of the run queue the size of the running
set is at most maxConcurrent, and tick consumes the pending list from the
FIFO front, starting (in order) exactly a selection of the popped prefix
consisting of runs whose persisted status was still queued, without ever
exceeding the cap. -/
theorem c5_queue_cap_fifo (mc : Nat) (s : QueueState) (h : QueueReachable mc s) :
    s.running.length ≤ mc ∧
    ∃ k started,
      k ≤ s.pending.length ∧
      (tickQ mc s).pending = s.pending.drop k ∧
      (tickQ mc s).running = s.running ++ started ∧
      List.Sublist started (s.pending.take k) ∧
      (∀ id ∈ started, dbGetStatus s.db id = some RunStatus.queued) ∧
      (tickQ mc s).running.length ≤ mc := by
  obtain ⟨hr, hp⟩ := queue_invariant mc s h
  obtain ⟨k, started, hk, h1, h2, h3, h4, h5⟩ :=
    tickFuel_spec mc s.pending.length s (Nat.le_refl _)
  have hq : tickQ mc s = tickFuel mc s.pending.length s := rfl
  refine ⟨hr, k, started, hk, ?_, ?_, h3, h5 hp, ?_⟩
  · rw [hq]
    exact h1
  · rw [hq]
    exact h2
  · rw [hq]
    omega

/-- C5 witness: the cap and tick characterization at a concrete reachable
state with one queued run. -/
theorem c5_queue_cap_fifo_witness :
    (⟨[], [], [], [("r1", RunStatus.queued)], []⟩ : QueueState).running.length ≤ 1 ∧
    ∃ k started,
      k ≤ (⟨[], [], [], [("r1", RunStatus.queued)], []⟩ : QueueState).pending.length ∧
      (tickQ 1 ⟨[], [], [], [("r1", RunStatus.queued)], []⟩).pending =
        (⟨[], [], [], [("r1", RunStatus.queued)], []⟩ : QueueState).pending.drop k ∧
      (tickQ 1 ⟨[], [], [], [("r1", RunStatus.queued)], []⟩).running =
        (⟨[], [], [], [("r1", RunStatus.queued)], []⟩ : QueueState).running ++ started ∧
      List.Sublist started
        ((⟨[], [], [], [("r1", RunStatus.queued)], []⟩ : QueueState).pending.take k) ∧
      (∀ id ∈ started,
        dbGetStatus (⟨[], [], [], [("r1", RunStatus.queued)], []⟩ : QueueState).db id =
          some RunStatus.queued) ∧
      (tickQ 1 ⟨[], [], [], [("r1", RunStatus.queued)], []⟩).running.length ≤ 1 :=
  c5_queue_cap_fifo 1 ⟨[], [], [], [("r1", RunStatus.queued)], []⟩
    (QueueReachable.init [("r1", RunStatus.queued)])

/-- C6: pause returns true only when the run is in the pending set
immediately prior (and its row exists); on success it removes the run from
pending, persists status paused and emits run.paused, touching nothing else;
whenever it returns false the whole queue and database state is unchanged
and no event is emitted. -/
theorem c6_pause_semantics (s : QueueState) (runId : String) :
    ((pauseOp s runId).1 = true → runId ∈ s.pending) ∧
    ((pauseOp s runId).1 = true →
      (pauseOp s runId).2.pending = s.pending.erase runId ∧
      (pauseOp s runId).2.db = dbSetStatus s.db runId RunStatus.paused ∧
      (pauseOp s runId).2.events = s.events ++ [("run.paused", runId)] ∧
      (pauseOp s runId).2.running = s.running ∧
      (pauseOp s runId).2.controllers = s.controllers) ∧
    ((pauseOp s runId).1 = false → (pauseOp s runId).2 = s) := by
  by_cases hc : s.pending.contains runId = true
  · rcases hdb : dbGetStatus s.db runId with _ | st
    · have hps : pauseOp s runId = (false, s) := by
        unfold pauseOp
        rw [if_pos hc, hdb]
    /- the match on a none scrutinee reduces to the no-op pair -/
      refine ⟨?_, ?_, ?_⟩ <;> rw [hps]
      · intro hfalse
        exact absurd hfalse (by simp)
      · intro hfalse
        exact absurd hfalse (by simp)
      · intro _
        rfl
    · have hps : pauseOp s runId =
          (true,
            ⟨s.pending.erase runId, s.running, s.controllers,
              dbSetStatus s.db runId RunStatus.paused,
              s.events ++ [("run.paused", runId)]⟩) := by
        unfold pauseOp
        rw [if_pos hc, hdb]
      refine ⟨fun _ => List.mem_of_elem_eq_true hc, fun _ => ?_, fun hfalse => ?_⟩
      · rw [hps]
        exact ⟨rfl, rfl, rfl, rfl, rfl⟩
      · rw [hps] at hfalse
        exact absurd hfalse (by simp)
  · have hps : pauseOp s runId = (false, s) := by
      unfold pauseOp
      rw [if_neg hc]
    refine ⟨?_, ?_, ?_⟩ <;> rw [hps]
    · intro hfalse
      exact absurd hfalse (by simp)
    · intro hfalse
      exact absurd hfalse (by simp)
    · intro _
      rfl

/-- C6 witness: pausing a queued pending run at a concrete state. -/
theorem c6_pause_semantics_witness :
    (pauseOp ⟨["r1"], [], [], [("r1", RunStatus.queued)], []⟩ "r1").2.pending =
      (["r1"] : List String).erase "r1" ∧
    (pauseOp ⟨["r1"], [], [], [("r1", RunStatus.queued)], []⟩ "r1").2.db =
      dbSetStatus [("r1", RunStatus.queued)] "r1" RunStatus.paused ∧
    (pauseOp ⟨["r1"], [], [], [("r1", RunStatus.queued)], []⟩ "r1").2.events =
      ([] : List (String × String)) ++ [("run.paused", "r1")] ∧
    (pauseOp ⟨["r1"], [], [], [("r1", RunStatus.queued)], []⟩ "r1").2.running = [] ∧
    (pauseOp ⟨["r1"], [], [], [("r1", RunStatus.queued)], []⟩ "r1").2.controllers = [] :=
  (c6_pause_semantics ⟨["r1"], [], [], [("r1", RunStatus.queued)], []⟩ "r1").2.1 (by decide)

/-! Automation scheduler (packages/ralphd/src/queue.ts). -/

/-- decDigitsVal maps a nonempty all-digit character list to its decimal
value. -/
def decDigitsVal (cs : List Char) : Option Nat :=
  if cs ≠ [] ∧ cs.all Char.isDigit then
    some (cs.foldl (fun acc c => acc * 10 + (c.toNat - 48)) 0)
  else none

/-- jsNumberInt models JS Number followed by the Number.isInteger guard of
cronPartMatches, restricted to the optionally signed decimal-integer strings
that cron fields of this repository use; any other string yields none (in JS
it would either be NaN or fail the integer guard for the inputs the claims
quantify over). -/
def jsNumberInt (s : String) : Option Int :=
  match s.data with
  | '-' :: rest => (decDigitsVal rest).map (fun n => -(n : Int))
  | '+' :: rest => (decDigitsVal rest).map (fun n => (n : Int))
  | cs => (decDigitsVal cs).map (fun n => (n : Int))

/-- cronPartMatches mirrors cronPartMatches of packages/ralphd/src/queue.ts:
a field is a wildcard or an integer equal to the wall-clock value. -/
def cronPartMatches (part : String) (value : Nat) : Bool :=
  if part = "*" then true
  else
    match jsNumberInt part with
    | some n => n == (value : Int)
    | none => false

/-- splitWsAux accumulates whitespace-separated tokens. -/
def splitWsAux (cur : List Char) : List Char → List String
  | [] => if cur = [] then [] else [String.mk cur.reverse]
  | c :: cs =>
    if c.isWhitespace then
      if cur = [] then splitWsAux [] cs
      else String.mk cur.reverse :: splitWsAux [] cs
    else splitWsAux (c :: cur) cs

/-- splitWs models trim followed by split on a whitespace run, as
matchesSimpleCron does. -/
def splitWs (s : String) : List String := splitWsAux [] s.data

/-- DateParts carries the wall-clock components the cron matcher reads, named
after the JS Date accessors (getMonth is zero-based). -/
structure DateParts where
  getMinutes : Nat
  getHours : Nat
  getDate : Nat
  getMonth : Nat
  getDay : Nat
deriving DecidableEq, Repr

/-- matchesSimpleCron mirrors matchesSimpleCron of
packages/ralphd/src/queue.ts: exactly five whitespace-separated fields,
matched against minute, hour, day of month, one-based month, day of week. -/
def matchesSimpleCron (cron : String) (d : DateParts) : Bool :=
  match splitWs cron with
  | [minute, hour, dayOfMonth, month, dayOfWeek] =>
    cronPartMatches minute d.getMinutes &&
    cronPartMatches hour d.getHours &&
    cronPartMatches dayOfMonth d.getDate &&
    cronPartMatches month (d.getMonth + 1) &&
    cronPartMatches dayOfWeek d.getDay
  | _ => false

/-- AutomationRec carries the automation fields the scheduler tick reads. -/
structure AutomationRec where
  id : String
  cron : String
  threadId : String
  maxIterations : Nat
  enabled : Bool
  lastRunAt : Option Nat
deriving DecidableEq, Repr

/-- lastMinuteBucket mirrors the lastMinuteBucket computation of
AutomationScheduler.tick: a missing or zero lastRunAt is falsy in JS and maps
to -1, otherwise the epoch minute bucket. -/
def lastMinuteBucket (lastRunAt : Option Nat) : Int :=
  match lastRunAt with
  | some t => if t = 0 then -1 else ((t / 60000 : Nat) : Int)
  | none => -1

/-- schedulerTriggers mirrors the per-automation decision of
AutomationScheduler.tick: enabled, linked to a thread, cron matches the wall
clock, and the current minute bucket differs from the last-triggered one. -/
def schedulerTriggers (a : AutomationRec) (d : DateParts) (nowMs : Nat) : Bool :=
  a.enabled &&
  (a.threadId != "") &&
  matchesSimpleCron a.cron d &&
  (lastMinuteBucket a.lastRunAt != ((nowMs / 60000 : Nat) : Int))

/-- C7 counterexample: an enabled, linked automation whose last-triggered
timestamp is epoch 0 fires again inside the very same minute bucket, because
a zero timestamp is falsy and treated as never-triggered. -/
theorem c7_counterexample :
    (⟨"a1", "* * * * *", "th1", 10, true, some 0⟩ : AutomationRec).enabled = true ∧
    (⟨"a1", "* * * * *", "th1", 10, true, some 0⟩ : AutomationRec).lastRunAt = some 0 ∧
    (0 : Nat) / 60000 = (30000 : Nat) / 60000 ∧
    schedulerTriggers ⟨"a1", "* * * * *", "th1", 10, true, some 0⟩ ⟨0, 0, 1, 0, 4⟩ 30000 = true := by
  refine ⟨rfl, rfl, by decide, ?_⟩
  decide

/-- C7 (amended): on a scheduler tick, an enabled automation linked to a
thread triggers exactly when its five-field cron matches the wall clock and
the current minute bucket differs from the bucket of its last-triggered
timestamp, where an absent or zero timestamp counts as bucket -1 (never
triggered); in particular a tick in the same minute bucket as a nonzero
last-triggered timestamp never fires a second run. -/
theorem c7_scheduler_bucket (a : AutomationRec) (d : DateParts) (nowMs : Nat)
    (he : a.enabled = true) (ht : a.threadId ≠ "") :
    (schedulerTriggers a d nowMs = true ↔
      (matchesSimpleCron a.cron d = true ∧
        lastMinuteBucket a.lastRunAt ≠ ((nowMs / 60000 : Nat) : Int))) ∧
    (∀ t : Nat, a.lastRunAt = some t → t ≠ 0 → t / 60000 = nowMs / 60000 →
      schedulerTriggers a d nowMs = false) := by
  constructor
  · unfold schedulerTriggers
    rw [he]
    have ht2 : (a.threadId != "") = true := by
      simpa using ht
    rw [ht2]
    constructor
    · intro h
      simp only [Bool.true_and, Bool.and_eq_true] at h
      refine ⟨h.1, ?_⟩
      have := h.2
      simpa using this
    · rintro ⟨h1, h2⟩
      simp only [Bool.true_and, Bool.and_eq_true]
      refine ⟨h1, ?_⟩
      simpa using h2
  · intro t hlast hne hbucket
    unfold schedulerTriggers
    have hb : lastMinuteBucket a.lastRunAt = ((nowMs / 60000 : Nat) : Int) := by
      rw [hlast]
      show (if t = 0 then (-1 : Int) else ((t / 60000 : Nat) : Int)) = ((nowMs / 60000 : Nat) : Int)
      rw [if_neg hne, hbucket]
    rw [hb]
    simp

/-- C7 witness: the amended characterization at a concrete automation whose
last trigger was one minute earlier. -/
theorem c7_scheduler_bucket_witness :
    schedulerTriggers ⟨"a1", "30 14 * * *", "th1", 10, true, some 60000⟩
        ⟨30, 14, 5, 9, 2⟩ 120000 = true :=
  ((c7_scheduler_bucket ⟨"a1", "30 14 * * *", "th1", 10, true, some 60000⟩
    ⟨30, 14, 5, 9, 2⟩ 120000 rfl (by decide)).1).mpr ⟨by decide, by decide⟩

/-! Worktree manager (packages/ralphd/src/worktree.ts). -/

/-- jsAlnumLatin recognises the characters kept by the replace-with-gi-flag
regex of createThreadWorktree: ASCII letters of either case and digits. -/
def jsAlnumLatin (c : Char) : Bool :=
  (('a' ≤ c && c ≤ 'z') || ('A' ≤ c && c ≤ 'Z') || ('0' ≤ c && c ≤ '9'))

/-- shortIdOf mirrors the short-identifier derivation of
createThreadWorktree: strip non-alphanumerics, keep the first ten
characters, lowercase. -/
def shortIdOf (threadId : String) : String :=
  String.mk (((threadId.data.filter jsAlnumLatin).take 10).map Char.toLower)

/-- worktreeBaseName is the path component used for the worktree directory:
the short id, or the literal thread when it is empty. -/
def worktreeBaseName (threadId : String) : String :=
  if shortIdOf threadId = "" then "thread" else shortIdOf threadId

/-- firstBranchName mirrors the first-attempt branch of
createThreadWorktree: the short id, or the current epoch milliseconds when
it is empty. -/
def firstBranchName (threadId : String) (nowMs : Nat) : String :=
  "ralph/thread-" ++ (if shortIdOf threadId = "" then toString nowMs else shortIdOf threadId)

/-- firstWorktreePath mirrors the first-attempt worktree path of
createThreadWorktree, with resolve modelled as POSIX joining under the
repository root. -/
def firstWorktreePath (repoRoot threadId : String) : String :=
  repoRoot ++ "/.ralph/worktrees/" ++ worktreeBaseName threadId

/-- worktreeAttempts lists the (branch, path) pairs createThreadWorktree
tries: the first attempt and, when that one fails, exactly one retry with
timestamp suffixes on both the branch and the path. -/
def worktreeAttempts (repoRoot threadId : String) (t0 t1 t2 : Nat)
    (firstFails : Bool) : List (String × String) :=
  let first := (firstBranchName threadId t0, firstWorktreePath repoRoot threadId)
  if firstFails then
    [first,
      (firstBranchName threadId t0 ++ "-" ++ toString t1,
        repoRoot ++ "/.ralph/worktrees/" ++ worktreeBaseName threadId ++ "-" ++ toString t2)]
  else [first]

/-- C9 counterexample: for a thread id with no alphanumeric characters the
short id is empty, and the first-attempt branch name uses the epoch
timestamp rather than the literal thread that the path falls back to. -/
theorem c9_counterexample :
    shortIdOf "---" = "" ∧
    firstWorktreePath "/repo" "---" = "/repo/.ralph/worktrees/thread" ∧
    firstBranchName "---" 1700000000000 = "ralph/thread-1700000000000" ∧
    firstBranchName "---" 1700000000000 ≠ "ralph/thread-thread" := by
  refine ⟨rfl, rfl, by decide, by decide⟩

/-- C9 (amended): the first creation attempt uses the worktree path
repoRoot/.ralph/worktrees/(shortId or the literal thread when empty) and the
branch ralph/thread-(shortId, or the current epoch milliseconds when empty),
where shortId keeps the alphanumeric characters of the thread id, truncated
to ten and lowercased; on a first failure exactly one retry follows, with a
timestamp suffix appended to both the branch and the path. -/
theorem c9_worktree_naming (repoRoot threadId : String) (t0 t1 t2 : Nat)
    (firstFails : Bool) :
    (shortIdOf threadId ≠ "" →
      firstBranchName threadId t0 = "ralph/thread-" ++ shortIdOf threadId) ∧
    (shortIdOf threadId = "" →
      firstBranchName threadId t0 = "ralph/thread-" ++ toString t0) ∧
    firstWorktreePath repoRoot threadId =
      repoRoot ++ "/.ralph/worktrees/" ++
        (if shortIdOf threadId = "" then "thread" else shortIdOf threadId) ∧
    shortIdOf threadId =
      String.mk (((threadId.data.filter jsAlnumLatin).take 10).map Char.toLower) ∧
    (firstFails = false →
      worktreeAttempts repoRoot threadId t0 t1 t2 firstFails =
        [(firstBranchName threadId t0, firstWorktreePath repoRoot threadId)]) ∧
    (firstFails = true →
      worktreeAttempts repoRoot threadId t0 t1 t2 firstFails =
        [(firstBranchName threadId t0, firstWorktreePath repoRoot threadId),
          (firstBranchName threadId t0 ++ "-" ++ toString t1,
            repoRoot ++ "/.ralph/worktrees/" ++ worktreeBaseName threadId ++ "-" ++
              toString t2)]) := by
  refine ⟨?_, ?_, rfl, rfl, ?_, ?_⟩
  · intro h
    unfold firstBranchName
    rw [if_neg h]
  · intro h
    unfold firstBranchName
    rw [if_pos h]
  · intro h
    unfold worktreeAttempts
    rw [h]
    rfl
  · intro h
    unfold worktreeAttempts
    rw [h]
    rfl

/-- C9 witness: the amended naming at a concrete thread id with a nonempty
short id and no retry. -/
theorem c9_worktree_naming_witness :
    firstBranchName "Thread-42!ABCDEF" 1700000000000 =
      "ralph/thread-" ++ shortIdOf "Thread-42!ABCDEF" ∧
    worktreeAttempts "/repo" "Thread-42!ABCDEF" 1700000000000 1 2 false =
      [(firstBranchName "Thread-42!ABCDEF" 1700000000000,
        firstWorktreePath "/repo" "Thread-42!ABCDEF")] :=
  ⟨(c9_worktree_naming "/repo" "Thread-42!ABCDEF" 1700000000000 1 2 false).1 (by decide),
    (c9_worktree_naming "/repo" "Thread-42!ABCDEF" 1700000000000 1 2 false).2.2.2.2.1 rfl⟩

/-! Run table update (packages/ralphd/src/db.ts). -/

/-- RunRecordM mirrors the RunRecord row fields of packages/shared, with the
columns updateRunStatus touches. -/
structure RunRecordM where
  id : String
  threadId : String
  status : RunStatus
  maxIterations : Nat
  iterations : Nat
  error : Option String
  createdAt : Nat
  startedAt : Option Nat
  finishedAt : Option Nat
deriving DecidableEq, Repr

/-- RunUpdates mirrors the optional updates bag of
RalphDatabase.updateRunStatus. -/
structure RunUpdates where
  iterations : Option Nat
  error : Option String
  startedAt : Option Nat
  finishedAt : Option Nat
deriving DecidableEq, Repr

/-- getRunM models RalphDatabase.getRun: the first row with the given id. -/
def getRunM : List RunRecordM → String → Option RunRecordM
  | [], _ => none
  | r :: rest, runId => if r.id = runId then some r else getRunM rest runId

/-- setRunM models the UPDATE ... WHERE id statement: replace every row with
the given id. -/
def setRunM (db : List RunRecordM) (runId : String) (r2 : RunRecordM) : List RunRecordM :=
  db.map (fun r => if r.id = runId then r2 else r)

/-- updateRunStatus mirrors RalphDatabase.updateRunStatus of
packages/ralphd/src/db.ts: look the run up, return without writing when it
is absent, otherwise write status and each supplied field, keeping the
previous value of every absent field. The Bool reports whether a write
happened. -/
def updateRunStatus (db : List RunRecordM) (runId : String) (status : RunStatus)
    (updates : RunUpdates) : List RunRecordM × Bool :=
  match getRunM db runId with
  | none => (db, false)
  | some run =>
    (setRunM db runId
      { run with
        status := status
        iterations := updates.iterations.getD run.iterations
        error := updates.error <|> run.error
        startedAt := updates.startedAt <|> run.startedAt
        finishedAt := updates.finishedAt <|> run.finishedAt }, true)

/-- getRunM_found_id: a found run has the looked-up id. -/
theorem getRunM_found_id (db : List RunRecordM) (runId : String) (run : RunRecordM)
    (h : getRunM db runId = some run) : run.id = runId := by
  induction db with
  | nil => exact Option.noConfusion h
  | cons r rest ih =>
    by_cases hr : r.id = runId
    · rw [getRunM, if_pos hr] at h
      rw [← Option.some.inj h]
      exact hr
    · rw [getRunM, if_neg hr] at h
      exact ih h

/-- getRunM_set: replacing the looked-up row makes the lookup return the
replacement, provided some row with that id existed. -/
theorem getRunM_set (db : List RunRecordM) (runId : String) (r2 : RunRecordM)
    (hid : r2.id = runId) (hex : ∃ r, getRunM db runId = some r) :
    getRunM (setRunM db runId r2) runId = some r2 := by
  induction db with
  | nil =>
    obtain ⟨r, hr⟩ := hex
    exact Option.noConfusion hr
  | cons r rest ih =>
    by_cases hr : r.id = runId
    · show getRunM ((if r.id = runId then r2 else r) :: setRunM rest runId r2) runId = some r2
      rw [if_pos hr, getRunM, if_pos hid]
    · show getRunM ((if r.id = runId then r2 else r) :: setRunM rest runId r2) runId = some r2
      rw [if_neg hr, getRunM, if_neg hr]
      apply ih
      obtain ⟨r3, hr3⟩ := hex
      rw [getRunM, if_neg hr] at hr3
      exact ⟨r3, hr3⟩

/-- getRunM_set_ne: replacing one row leaves lookups of other ids
unchanged. -/
theorem getRunM_set_ne (db : List RunRecordM) (runId : String) (r2 : RunRecordM)
    (id2 : String) (hne : id2 ≠ runId) (hid : r2.id = runId) :
    getRunM (setRunM db runId r2) id2 = getRunM db id2 := by
  induction db with
  | nil => rfl
  | cons r rest ih =>
    by_cases hr : r.id = runId
    · have h1 : ¬ r2.id = id2 := by
        rw [hid]
        exact fun hc => hne hc.symm
      have h2 : ¬ r.id = id2 := by
        rw [hr]
        exact fun hc => hne hc.symm
      show getRunM ((if r.id = runId then r2 else r) :: setRunM rest runId r2) id2 = _
      rw [if_pos hr, getRunM, if_neg h1, getRunM, if_neg h2]
      exact ih
    · show getRunM ((if r.id = runId then r2 else r) :: setRunM rest runId r2) id2 = _
      rw [if_neg hr]
      by_cases hq : r.id = id2
      · rw [getRunM, if_pos hq, getRunM, if_pos hq]
      · rw [getRunM, if_neg hq, getRunM, if_neg hq]
        exact ih

/-- C10: updateRunStatus performs no write at all when no run with the given
id exists; otherwise it writes status and exactly the supplied update
fields, leaving iterations, error, startedAt and finishedAt at their
previous values when the corresponding update is absent, and leaving every
other run untouched. -/
theorem c10_updateRunStatus_frame (db : List RunRecordM) (runId : String)
    (status : RunStatus) (updates : RunUpdates) :
    (getRunM db runId = none → updateRunStatus db runId status updates = (db, false)) ∧
    (∀ run, getRunM db runId = some run →
      (updateRunStatus db runId status updates).2 = true ∧
      ∃ run2,
        getRunM (updateRunStatus db runId status updates).1 runId = some run2 ∧
        run2.status = status ∧
        run2.id = run.id ∧
        run2.threadId = run.threadId ∧
        run2.maxIterations = run.maxIterations ∧
        run2.createdAt = run.createdAt ∧
        (updates.iterations = none → run2.iterations = run.iterations) ∧
        (updates.error = none → run2.error = run.error) ∧
        (updates.startedAt = none → run2.startedAt = run.startedAt) ∧
        (updates.finishedAt = none → run2.finishedAt = run.finishedAt) ∧
        (∀ v, updates.iterations = some v → run2.iterations = v) ∧
        (∀ v, updates.error = some v → run2.error = some v) ∧
        (∀ v, updates.startedAt = some v → run2.startedAt = some v) ∧
        (∀ v, updates.finishedAt = some v → run2.finishedAt = some v) ∧
        (∀ id2, id2 ≠ runId →
          getRunM (updateRunStatus db runId status updates).1 id2 = getRunM db id2)) := by
  constructor
  · intro h
    unfold updateRunStatus
    rw [h]
  · intro run hrun
    have hid : run.id = runId := getRunM_found_id db runId run hrun
    have hupd : updateRunStatus db runId status updates =
        (setRunM db runId
          { run with
            status := status
            iterations := updates.iterations.getD run.iterations
            error := updates.error <|> run.error
            startedAt := updates.startedAt <|> run.startedAt
            finishedAt := updates.finishedAt <|> run.finishedAt }, true) := by
      unfold updateRunStatus
      rw [hrun]
    refine ⟨by rw [hupd], ?_⟩
    refine ⟨{ run with
        status := status
        iterations := updates.iterations.getD run.iterations
        error := updates.error <|> run.error
        startedAt := updates.startedAt <|> run.startedAt
        finishedAt := updates.finishedAt <|> run.finishedAt }, ?_, rfl, rfl, rfl, rfl, rfl,
      ?_, ?_, ?_, ?_, ?_, ?_, ?_, ?_, ?_⟩
    · rw [hupd]
      exact getRunM_set db runId _ hid ⟨run, hrun⟩
    · intro h
      show updates.iterations.getD run.iterations = run.iterations
      rw [h]
      rfl
    · intro h
      show (updates.error <|> run.error) = run.error
      rw [h]
      rfl
    · intro h
      show (updates.startedAt <|> run.startedAt) = run.startedAt
      rw [h]
      rfl
    · intro h
      show (updates.finishedAt <|> run.finishedAt) = run.finishedAt
      rw [h]
      rfl
    · intro v h
      show updates.iterations.getD run.iterations = v
      rw [h]
      rfl
    · intro v h
      show (updates.error <|> run.error) = some v
      rw [h]
      rfl
    · intro v h
      show (updates.startedAt <|> run.startedAt) = some v
      rw [h]
      rfl
    · intro v h
      show (updates.finishedAt <|> run.finishedAt) = some v
      rw [h]
      rfl
    · intro id2 hne
      rw [hupd]
      exact getRunM_set_ne db runId _ id2 hne hid

/-- C10 witness: updating a concrete run with an empty updates bag flips the
status while keeping every other field. -/
theorem c10_updateRunStatus_frame_witness :
    (updateRunStatus [⟨"r1", "t1", RunStatus.queued, 5, 0, none, 100, none, none⟩]
      "r1" RunStatus.running ⟨none, none, none, none⟩).2 = true :=
  ((c10_updateRunStatus_frame [⟨"r1", "t1", RunStatus.queued, 5, 0, none, 100, none, none⟩]
    "r1" RunStatus.running ⟨none, none, none, none⟩).2
    ⟨"r1", "t1", RunStatus.queued, 5, 0, none, 100, none, none⟩ (by decide)).1

/-! Review comments and feedback rerun (packages/ralphd/src/index.ts). -/

/-- CommentStatus models the status column of review comments; the source
value open is rendered opened because open is a Lean keyword. -/
inductive CommentStatus where
  | opened | applied
deriving DecidableEq, Repr

/-- ReviewComment mirrors ReviewCommentRecord of packages/shared. -/
structure ReviewComment where
  id : Nat
  threadId : String
  runId : Option String
  filePath : String
  lineNumber : Nat
  body : String
  status : CommentStatus
  createdAt : Nat
deriving DecidableEq, Repr

/-- findComment looks a comment up by id within the given thread. -/
def findComment : List ReviewComment → String → Nat → Option ReviewComment
  | [], _, _ => none
  | c :: rest, threadId, i =>
    if c.id = i ∧ c.threadId = threadId then some c else findComment rest threadId i

/-- Modelled from the spec: getReviewCommentsByIds of the ralphd database is
absent from src (only its caller is); per §4.11 it returns only comments
belonging to that thread, and the numbered rerun list preserves submission
order, so resolution follows the submitted id order. -/
def getReviewCommentsByIds (store : List ReviewComment) (threadId : String)
    (ids : List Nat) : List ReviewComment :=
  ids.filterMap (fun i => findComment store threadId i)

/-- Modelled from the spec: markReviewCommentsApplied of the ralphd database
is absent from src; per §4.11 it flips the selected comments of the thread
to applied. -/
def markReviewCommentsApplied (store : List ReviewComment) (threadId : String)
    (ids : List Nat) : List ReviewComment :=
  store.map (fun c =>
    if c.threadId = threadId ∧ c.id ∈ ids then { c with status := CommentStatus.applied }
    else c)

/-- feedbackHeader is the literal header line of the rerun task override. -/
def feedbackHeader : String :=
  "Address the following review feedback before declaring completion:"

/-- rerunFromComments mirrors the pure core of the rerun-from-comments
handler of packages/ralphd/src/index.ts: resolve the selected comments,
report none when no comment matches (the 404 branch), otherwise produce the
task override, the source run id of the first resolved comment, and the
comment store after marking the selection applied. -/
def rerunFromComments (threadTask : String) (store : List ReviewComment)
    (threadId : String) (commentIds : List Nat) :
    Option (String × Option String × List ReviewComment) :=
  let comments := getReviewCommentsByIds store threadId commentIds
  if comments.isEmpty then none
  else
    let feedbackBlock :=
      jsJoin "\n" (comments.enum.map (fun p =>
        toString (p.1 + 1) ++ ". " ++ p.2.filePath ++ ":" ++ toString p.2.lineNumber ++
          " - " ++ p.2.body))
    some
      (threadTask ++ "\n\n" ++ feedbackHeader ++ "\n" ++ feedbackBlock,
        (comments.head?).bind (fun c => c.runId),
        markReviewCommentsApplied store threadId commentIds)

/-- nodup_ids_inj: in a store whose ids are duplicate-free, the id determines
the comment. -/
theorem nodup_ids_inj :
    ∀ (store : List ReviewComment), (store.map (fun c => c.id)).Nodup →
      ∀ c1 ∈ store, ∀ c2 ∈ store, c1.id = c2.id → c1 = c2 := by
  intro store
  induction store with
  | nil =>
    intro _ c1 h1
    exact absurd h1 (List.not_mem_nil c1)
  | cons c rest ih =>
    intro hnd c1 h1 c2 h2 heq
    rw [List.map_cons, List.nodup_cons] at hnd
    rcases List.mem_cons.mp h1 with rfl | h1r
    · rcases List.mem_cons.mp h2 with rfl | h2r
      · rfl
      · have hm : c2.id ∈ rest.map (fun c => c.id) := List.mem_map_of_mem _ h2r
        rw [← heq] at hm
        exact absurd hm hnd.1
    · rcases List.mem_cons.mp h2 with rfl | h2r
      · have hm : c1.id ∈ rest.map (fun c => c.id) := List.mem_map_of_mem _ h1r
        rw [heq] at hm
        exact absurd hm hnd.1
      · exact ih hnd.2 c1 h1r c2 h2r heq

/-- findComment_eq: in a store with duplicate-free ids, looking up the id of
a stored comment of the thread finds exactly that comment. -/
theorem findComment_eq :
    ∀ (store : List ReviewComment), (store.map (fun c => c.id)).Nodup →
      ∀ c ∈ store, c.threadId = threadId → findComment store threadId c.id = some c := by
  intro store
  induction store with
  | nil =>
    intro _ c h1
    exact absurd h1 (List.not_mem_nil c)
  | cons d rest ih =>
    intro hnd c hc hth
    by_cases hd : d.id = c.id ∧ d.threadId = threadId
    · rw [findComment, if_pos hd]
      have : d = c := nodup_ids_inj (d :: rest) hnd d (List.mem_cons_self d rest) c hc hd.1
      rw [this]
    · rw [findComment, if_neg hd]
      rcases List.mem_cons.mp hc with rfl | hcr
      · exact absurd ⟨rfl, hth⟩ hd
      · rw [List.map_cons, List.nodup_cons] at hnd
        exact ih hnd.2 c hcr hth

/-- getByIds_eq: under duplicate-free ids, resolving the submitted id list
returns exactly the corresponding comments in submission order. -/
theorem getByIds_eq (store : List ReviewComment) (threadId : String) :
    ∀ (ids : List Nat) (cs : List ReviewComment),
      (store.map (fun c => c.id)).Nodup →
      List.Forall₂ (fun i c => c ∈ store ∧ c.threadId = threadId ∧ c.id = i) ids cs →
      getReviewCommentsByIds store threadId ids = cs := by
  intro ids
  induction ids with
  | nil =>
    intro cs hnd hf
    cases hf
    rfl
  | cons i rest ih =>
    intro cs hnd hf
    cases hf with
    | cons hic hrest =>
      rename_i c cs2
      obtain ⟨hmem, hth, hid⟩ := hic
      have hfind : findComment store threadId i = some c := by
        rw [← hid]
        exact findComment_eq store hnd c hmem hth
      show (i :: rest).filterMap (fun j => findComment store threadId j) = c :: cs2
      rw [List.filterMap_cons, hfind]
      have := ih cs2 hnd hrest
      rw [show getReviewCommentsByIds store threadId rest =
          rest.filterMap (fun j => findComment store threadId j) from rfl] at this
      rw [this]

/-- forall₂_mem_right: every element of the right list of a Forall₂ is
related to some element of the left list. -/
theorem forall₂_mem_right {R : Nat → ReviewComment → Prop} :
    ∀ {ids : List Nat} {cs : List ReviewComment}, List.Forall₂ R ids cs →
      ∀ c ∈ cs, ∃ i ∈ ids, R i c := by
  intro ids cs hf
  induction hf with
  | nil =>
    intro c hc
    exact absurd hc (List.not_mem_nil c)
  | cons h t ih =>
    intro c hc
    rcases List.mem_cons.mp hc with rfl | hcr
    · exact ⟨_, List.mem_cons_self _ _, h⟩
    · obtain ⟨i, hi, hr⟩ := ih c hcr
      exact ⟨i, List.mem_cons_of_mem _ hi, hr⟩

/-- markApplied_selected: a selected comment of the thread appears in the
updated store with status applied. -/
theorem markApplied_selected (store : List ReviewComment) (threadId : String)
    (ids : List Nat) (c : ReviewComment) (hc : c ∈ store) (hth : c.threadId = threadId)
    (hid : c.id ∈ ids) :
    ({ c with status := CommentStatus.applied }) ∈
      markReviewCommentsApplied store threadId ids := by
  unfold markReviewCommentsApplied
  have heq : (if c.threadId = threadId ∧ c.id ∈ ids then
      ({ c with status := CommentStatus.applied }) else c) =
      ({ c with status := CommentStatus.applied }) := if_pos ⟨hth, hid⟩
  rw [← heq]
  exact List.mem_map_of_mem _ hc

/-- markApplied_other: a comment outside the selection is kept unchanged in
the updated store. -/
theorem markApplied_other (store : List ReviewComment) (threadId : String)
    (ids : List Nat) (c : ReviewComment) (hc : c ∈ store)
    (h : ¬ (c.threadId = threadId ∧ c.id ∈ ids)) :
    c ∈ markReviewCommentsApplied store threadId ids := by
  unfold markReviewCommentsApplied
  have heq : (if c.threadId = threadId ∧ c.id ∈ ids then
      ({ c with status := CommentStatus.applied }) else c) = c := if_neg h
  rw [← heq]
  exact List.mem_map_of_mem _ hc

/-- C8: for a nonempty selection whose ids resolve (in submission order) to
comments of the thread, the rerun produces a task override equal to the base
task, a blank line, the literal feedback header, and one numbered
filePath:lineNumber - body line per selected comment in submitted order; the
source run id is the run id of the first selected comment (absent when that
comment has none); and in the resulting store every selected comment carries
status applied while unselected comments are kept unchanged. -/
theorem c8_feedback_rerun (store : List ReviewComment) (threadId threadTask : String)
    (commentIds : List Nat) (c0 : ReviewComment) (rest : List ReviewComment)
    (hnd : (store.map (fun c => c.id)).Nodup)
    (hres : List.Forall₂ (fun i c => c ∈ store ∧ c.threadId = threadId ∧ c.id = i)
      commentIds (c0 :: rest)) :
    rerunFromComments threadTask store threadId commentIds =
      some
        (threadTask ++ "\n\n" ++ feedbackHeader ++ "\n" ++
          jsJoin "\n" ((c0 :: rest).enum.map (fun p =>
            toString (p.1 + 1) ++ ". " ++ p.2.filePath ++ ":" ++ toString p.2.lineNumber ++
              " - " ++ p.2.body)),
          c0.runId,
          markReviewCommentsApplied store threadId commentIds) ∧
    (∀ c ∈ (c0 :: rest),
      ({ c with status := CommentStatus.applied }) ∈
        markReviewCommentsApplied store threadId commentIds) ∧
    (∀ c ∈ store, ¬ (c.threadId = threadId ∧ c.id ∈ commentIds) →
      c ∈ markReviewCommentsApplied store threadId commentIds) := by
  have hget : getReviewCommentsByIds store threadId commentIds = c0 :: rest :=
    getByIds_eq store threadId commentIds (c0 :: rest) hnd hres
  refine ⟨?_, ?_, ?_⟩
  · unfold rerunFromComments
    rw [hget]
    rfl
  · intro c hc
    obtain ⟨i, hi, hmem, hth, hid⟩ := forall₂_mem_right hres c hc
    exact markApplied_selected store threadId commentIds c hmem hth (hid ▸ hi)
  · intro c hc hnot
    exact markApplied_other store threadId commentIds c hc hnot

/-- C8 witness: the rerun built from two concrete open comments. -/
theorem c8_feedback_rerun_witness :
    rerunFromComments "TASK"
        [⟨1, "t1", some "r0", "src/a.ts", 10, "rename", CommentStatus.opened, 5⟩,
          ⟨2, "t1", none, "src/a.ts", 22, "extract helper", CommentStatus.opened, 6⟩]
        "t1" [1, 2] =
      some
        ("TASK" ++ "\n\n" ++ feedbackHeader ++ "\n" ++
          jsJoin "\n"
            (([⟨1, "t1", some "r0", "src/a.ts", 10, "rename", CommentStatus.opened, 5⟩,
              ⟨2, "t1", none, "src/a.ts", 22, "extract helper", CommentStatus.opened, 6⟩] :
                List ReviewComment).enum.map (fun p =>
              toString (p.1 + 1) ++ ". " ++ p.2.filePath ++ ":" ++ toString p.2.lineNumber ++
                " - " ++ p.2.body)),
          some "r0",
          markReviewCommentsApplied
            [⟨1, "t1", some "r0", "src/a.ts", 10, "rename", CommentStatus.opened, 5⟩,
              ⟨2, "t1", none, "src/a.ts", 22, "extract helper", CommentStatus.opened, 6⟩]
            "t1" [1, 2]) :=
  (c8_feedback_rerun
    [⟨1, "t1", some "r0", "src/a.ts", 10, "rename", CommentStatus.opened, 5⟩,
      ⟨2, "t1", none, "src/a.ts", 22, "extract helper", CommentStatus.opened, 6⟩]
    "t1" "TASK" [1, 2]
    ⟨1, "t1", some "r0", "src/a.ts", 10, "rename", CommentStatus.opened, 5⟩
    [⟨2, "t1", none, "src/a.ts", 22, "extract helper", CommentStatus.opened, 6⟩]
    (by decide)
    (List.Forall₂.cons (by decide) (List.Forall₂.cons (by decide) List.Forall₂.nil))).1
